import Mathlib

/-!
# Verification of the chessmaster engine/analysis layer

A shallow embedding, in Lean 4, of the engine process manager and the
move-classification glue of the chessmaster backend:

* `src/engine/engine.service.ts` — the Stockfish session layer
  (`parseAnalysisResults`, `evaluatePosition`, `evaluatePositionInternal`,
  `evaluatePositionWithRetry`, `calculateEvaluationDelta`,
  `isTerminalPosition`, `isValidFen`);
* `src/chess/AnalysisService.ts` — the orchestrator (`evalToCP` and the
  call `classifyMove(cpLoss, isBestMove)` of step 6 of `analyzeGame`);
* `src/chess/chess.service.ts` — `classifyMove`.

Pure functions are translated directly; the asynchronous message handling
of the engine session (buffered stdout lines, the pending promise, the
timeout callback) is embedded as an explicit state machine over an event
trace.  The external chess rules library (`chess.js`: `validateFen`,
checkmate/stalemate/draw detection) is an external collaborator and is
passed in as an oracle.
-/

namespace Chessmaster

/-! ## Data model (engine.service.ts lines 7-18) -/

/-- The tag of the `Evaluation` union: `'cp' | 'mate'`. -/
inductive EvalType where
  | cp
  | mate
deriving DecidableEq, Repr

/-- `interface Evaluation { type: 'cp' | 'mate'; value: number }`.
Values are integers (Stockfish emits integral cp and mate counts). -/
structure Evaluation where
  type : EvalType
  value : Int
deriving DecidableEq, Repr

/-- `interface EngineLine { id, depth, evaluation, moveUCI }`
(the optional `moveSAN` is never produced by the parser and is omitted). -/
structure EngineLine where
  id : Nat
  depth : Nat
  evaluation : Evaluation
  moveUCI : String
deriving DecidableEq, Repr

/-! ## The regex scanners of `parseAnalysisResults`

`parseAnalysisResults` (engine.service.ts lines 119-163) applies the
JavaScript regexes `/depth (\d+)/`, `/multipv (\d+)/`,
`/ pv ([a-h][1-8][a-h][1-8][qrbnQRBN]?)/`, `/score cp (-?\d+)/` and
`/score mate (-?\d+)/` to each message via `String.prototype.match`,
which returns the leftmost match.  We embed each regex as a left-to-right
scan over the character list of the message. -/

/-- JS `\d`. -/
def isDigitChar (c : Char) : Bool :=
  '0' ≤ c && c ≤ '9'

/-- Splits a leading run of decimal digits (the greedy `\d+`). -/
def takeDigits : List Char → List Char × List Char
  | [] => ([], [])
  | c :: cs =>
    if isDigitChar c then
      let (ds, rest) := takeDigits cs
      (c :: ds, rest)
    else ([], c :: cs)

/-- Decimal value of a digit run (JS `parseInt` on the capture of `\d+`). -/
def digitsToNat (ds : List Char) : Nat :=
  ds.foldl (fun acc c => acc * 10 + (c.toNat - '0'.toNat)) 0

/-- Tries `kw` followed by at least one digit at the current position;
the capture is the greedy digit run. -/
def matchNumHere (kw : List Char) (s : List Char) : Option Nat :=
  match List.dropPrefix? s kw with
  | none => none
  | some rest =>
    let (ds, _) := takeDigits rest
    if ds.isEmpty then none else some (digitsToNat ds)

/-- Leftmost match of the regex `kw(\d+)` (e.g. `/depth (\d+)/`),
returning the captured number. -/
def scanNum (kw : List Char) : List Char → Option Nat
  | [] => none
  | c :: cs =>
    match matchNumHere kw (c :: cs) with
    | some n => some n
    | none => scanNum kw cs

/-- Tries `kw` followed by `-?\d+` at the current position. -/
def matchIntHere (kw : List Char) (s : List Char) : Option Int :=
  match List.dropPrefix? s kw with
  | none => none
  | some rest =>
    match rest with
    | '-' :: rest2 =>
      let (ds, _) := takeDigits rest2
      if ds.isEmpty then none else some (-(digitsToNat ds : Int))
    | _ =>
      let (ds, _) := takeDigits rest
      if ds.isEmpty then none else some (digitsToNat ds : Int)

/-- Leftmost match of the regex `kw(-?\d+)` (e.g. `/score cp (-?\d+)/`). -/
def scanInt (kw : List Char) : List Char → Option Int
  | [] => none
  | c :: cs =>
    match matchIntHere kw (c :: cs) with
    | some n => some n
    | none => scanInt kw cs

/-- `[a-h]` — a file letter of a coordinate square. -/
def isFileChar (c : Char) : Bool :=
  'a' ≤ c && c ≤ 'h'

/-- `[1-8]` — a rank digit of a coordinate square. -/
def isRankChar (c : Char) : Bool :=
  '1' ≤ c && c ≤ '8'

/-- `[qrbnQRBN]` — a promotion piece letter. -/
def isPromoChar (c : Char) : Bool :=
  c = 'q' || c = 'r' || c = 'b' || c = 'n' || c = 'Q' || c = 'R' || c = 'B' || c = 'N'

/-- Tries `" pv "` followed by `[a-h][1-8][a-h][1-8][qrbnQRBN]?` at the
current position; the capture is the 4- or 5-character move (the optional
promotion letter is matched greedily, as in JS). -/
def matchMoveHere (s : List Char) : Option String :=
  match List.dropPrefix? s [' ', 'p', 'v', ' '] with
  | none => none
  | some rest =>
    match rest with
    | c1 :: c2 :: c3 :: c4 :: rest4 =>
      if isFileChar c1 && isRankChar c2 && isFileChar c3 && isRankChar c4 then
        match rest4 with
        | c5 :: _ =>
          if isPromoChar c5 then
            some (String.mk [c1, c2, c3, c4, c5])
          else
            some (String.mk [c1, c2, c3, c4])
        | [] => some (String.mk [c1, c2, c3, c4])
      else none
    | _ => none

/-- Leftmost match of `/ pv ([a-h][1-8][a-h][1-8][qrbnQRBN]?)/`. -/
def scanMove : List Char → Option String
  | [] => none
  | c :: cs =>
    match matchMoveHere (c :: cs) with
    | some m => some m
    | none => scanMove cs

/-! ## Parsing one accumulated message (engine.service.ts lines 122-150)

The loop body of `parseAnalysisResults`: a message not starting with
`info depth`, or without a parseable depth or first principal-variation
move, is skipped (`continue`).  A missing `multipv` token defaults the
rank to 1; a missing score defaults to `cp 0`. -/

/-- One iteration of the message loop of `parseAnalysisResults`:
`some line` when the message contributes an `EngineLine`, `none` when the
message is skipped by one of the two `continue`s. -/
def parseInfoLine (message : String) : Option EngineLine :=
  if List.isPrefixOf "info depth".data message.data then
    match scanNum "depth ".data message.data, scanMove message.data with
    | some depth, some moveUCI =>
      let id := (scanNum "multipv ".data message.data).getD 1
      let mateMatch := scanInt "score mate ".data message.data
      let cpMatch := scanInt "score cp ".data message.data
      let evaluation : Evaluation :=
        match mateMatch with
        | some m => ⟨.mate, m⟩
        | none => ⟨.cp, cpMatch.getD 0⟩
      some ⟨id, depth, evaluation, moveUCI⟩
    | _, _ => none
  else none

/-! ## Accumulation into `linesByDepth` and selection of the best depth
(engine.service.ts lines 120, 142-162)

`linesByDepth` is a JS `Map<number, EngineLine[]>`; we embed it as an
association list in insertion order.  A line is appended to its depth's
bucket only when no line with the same `id` is already there. -/

/-- `if (!linesByDepth.has(depth)) set(depth, []); if (!some(id)) push`. -/
def addToDepth : List (Nat × List EngineLine) → EngineLine → List (Nat × List EngineLine)
  | [], l => [(l.depth, [l])]
  | (d, ls) :: rest, l =>
    if d = l.depth then
      if ls.any (fun x => x.id = l.id) then (d, ls) :: rest
      else (d, ls ++ [l]) :: rest
    else (d, ls) :: addToDepth rest l

/-- The message loop of `parseAnalysisResults`, folded over the
accumulated messages. -/
def accumulateLines (messages : List String) : List (Nat × List EngineLine) :=
  messages.foldl
    (fun m message =>
      match parseInfoLine message with
      | some l => addToDepth m l
      | none => m)
    []

/-- `Array.from(linesByDepth.keys()).sort((a, b) => b - a)[0]`, with the
JS falsiness of `undefined` and `0` collapsed to the value `0` (keys are
distinct, so the greatest key is the head of the descending sort). -/
def bestDepthOf (m : List (Nat × List EngineLine)) : Nat :=
  m.foldl (fun acc p => max acc p.1) 0

/-- `lines.sort((a, b) => a.id - b.id)`: insertion of one line into an
id-ascending list. -/
def insertById (x : EngineLine) : List EngineLine → List EngineLine
  | [] => [x]
  | y :: ys => if x.id ≤ y.id then x :: y :: ys else y :: insertById x ys

/-- `lines.sort((a, b) => a.id - b.id)`; ids inside one depth bucket are
distinct by construction, so any comparison sort produces this unique
id-ascending arrangement. -/
def sortById (ls : List EngineLine) : List EngineLine :=
  ls.foldr insertById []

/-- `parseAnalysisResults` (engine.service.ts lines 119-163): parse the
accumulated stdout messages, keep the buckets of distinct-id lines per
depth, and return the bucket of the deepest depth, sorted by rank
ascending — the empty list when no depth was seen or when the deepest
seen depth is `0` (JS: `if (!bestDepth) return []`). -/
def parseAnalysisResults (messages : List String) : List EngineLine :=
  let linesByDepth := accumulateLines messages
  let bestDepth := bestDepthOf linesByDepth
  if bestDepth = 0 then []
  else sortById ((List.lookup bestDepth linesByDepth).getD [])

example :
    parseInfoLine "info depth 10 multipv 2 score cp 3 pv d2d4" =
      some ⟨2, 10, ⟨.cp, 3⟩, "d2d4"⟩ := by decide

example :
    parseAnalysisResults
      ["info depth 10 multipv 1 score cp 5 pv e2e4",
       "info depth 10 multipv 2 score cp 3 pv d2d4",
       "info depth 12 multipv 1 score cp 7 pv e2e4"] =
      [⟨1, 12, ⟨.cp, 7⟩, "e2e4"⟩] := by decide

example :
    parseAnalysisResults ["info depth 3 score mate -2 pv e7e8q", "bestmove e7e8q"] =
      [⟨1, 3, ⟨.mate, -2⟩, "e7e8q"⟩] := by decide

/-! ## Structural invariants of the parser -/

/-- Invariant of the `linesByDepth` accumulator: every line sits in the
bucket of its own depth, and ids inside one bucket are pairwise distinct. -/
def DepthMapInv (m : List (Nat × List EngineLine)) : Prop :=
  ∀ p ∈ m, (∀ l ∈ p.2, l.depth = p.1) ∧ p.2.Pairwise (fun a b => a.id ≠ b.id)

theorem addToDepth_inv {m : List (Nat × List EngineLine)} (l : EngineLine)
    (h : DepthMapInv m) : DepthMapInv (addToDepth m l) := by
  induction m with
  | nil =>
    intro p hp
    simp only [addToDepth, List.mem_singleton] at hp
    subst hp
    constructor
    · intro x hx; simp only [List.mem_singleton] at hx; simp [hx]
    · simp
  | cons q rest ih =>
    obtain ⟨d, ls⟩ := q
    have hq := h (d, ls) (List.mem_cons_self _ _)
    have hrest : DepthMapInv rest := fun p hp => h p (List.mem_cons_of_mem _ hp)
    simp only [addToDepth]
    by_cases hd : d = l.depth
    · simp only [if_pos hd]
      by_cases hany : ls.any (fun x => x.id = l.id)
      · simp only [if_pos hany]
        intro p hp
        rcases List.mem_cons.1 hp with h1 | h2
        · subst h1; exact hq
        · exact hrest p h2
      · simp only [if_neg hany]
        intro p hp
        rcases List.mem_cons.1 hp with h1 | h2
        · subst h1
          constructor
          · intro x hx
            rcases List.mem_append.1 hx with hx1 | hx2
            · exact hq.1 x hx1
            · simp only [List.mem_singleton] at hx2; subst hx2; exact hd.symm
          · rw [List.pairwise_append]
            refine ⟨hq.2, List.pairwise_singleton _ _, ?_⟩
            intro a ha b hb
            simp only [List.mem_singleton] at hb
            subst hb
            simp only [List.any_eq_true, not_exists, not_and] at hany
            have := hany a ha
            simp only [decide_eq_true_eq] at this
            exact this
        · exact hrest p h2
    · simp only [if_neg hd]
      intro p hp
      rcases List.mem_cons.1 hp with h1 | h2
      · subst h1; exact hq
      · exact ih hrest p h2

theorem accumulateLines_inv (messages : List String) :
    DepthMapInv (accumulateLines messages) := by
  suffices h : ∀ (m : List (Nat × List EngineLine)), DepthMapInv m →
      DepthMapInv (messages.foldl
        (fun m message =>
          match parseInfoLine message with
          | some l => addToDepth m l
          | none => m) m) by
    exact h [] (by intro p hp; simp at hp)
  induction messages with
  | nil => intro m hm; exact hm
  | cons msg rest ih =>
    intro m hm
    simp only [List.foldl_cons]
    apply ih
    cases parseInfoLine msg with
    | none => exact hm
    | some l => exact addToDepth_inv l hm

theorem lookup_mem {m : List (Nat × List EngineLine)} {k : Nat} {ls : List EngineLine}
    (h : List.lookup k m = some ls) : (k, ls) ∈ m := by
  induction m with
  | nil => simp [List.lookup] at h
  | cons q rest ih =>
    obtain ⟨d, bs⟩ := q
    by_cases hk : k = d
    · subst hk
      simp only [List.lookup, beq_self_eq_true, Option.some.injEq] at h
      exact List.mem_cons.2 (Or.inl (by simp_all))
    · have hb : (k == d) = false := beq_eq_false_iff_ne.2 hk
      simp only [List.lookup, hb] at h
      exact List.mem_cons.2 (Or.inr (ih h))

theorem insertById_perm (x : EngineLine) (ls : List EngineLine) :
    List.Perm (insertById x ls) (x :: ls) := by
  induction ls with
  | nil => simp [insertById]
  | cons y ys ih =>
    simp only [insertById]
    by_cases hle : x.id ≤ y.id
    · simp [if_pos hle]
    · rw [if_neg hle]
      exact List.Perm.trans (List.Perm.cons y ih) (List.Perm.swap x y ys)

theorem sortById_perm (ls : List EngineLine) : List.Perm (sortById ls) ls := by
  induction ls with
  | nil => simp [sortById]
  | cons x xs ih =>
    simp only [sortById, List.foldr_cons]
    exact List.Perm.trans (insertById_perm x _) (List.Perm.cons x ih)

theorem insertById_sorted (x : EngineLine) {ls : List EngineLine}
    (h : ls.Pairwise (fun a b => a.id ≤ b.id)) :
    (insertById x ls).Pairwise (fun a b => a.id ≤ b.id) := by
  induction ls with
  | nil => simp [insertById]
  | cons y ys ih =>
    have hy := List.pairwise_cons.1 h
    simp only [insertById]
    by_cases hle : x.id ≤ y.id
    · rw [if_pos hle]
      refine List.pairwise_cons.2 ⟨?_, h⟩
      intro b hb
      rcases List.mem_cons.1 hb with h1 | h2
      · subst h1; exact hle
      · exact Nat.le_trans hle (hy.1 b h2)
    · rw [if_neg hle]
      refine List.pairwise_cons.2 ⟨?_, ih hy.2⟩
      intro b hb
      have hb' := (insertById_perm x ys).mem_iff.1 hb
      rcases List.mem_cons.1 hb' with h1 | h2
      · subst h1; exact Nat.le_of_not_le hle
      · exact hy.1 b h2

theorem sortById_sorted (ls : List EngineLine) :
    (sortById ls).Pairwise (fun a b => a.id ≤ b.id) := by
  induction ls with
  | nil => simp [sortById]
  | cons x xs ih =>
    simp only [sortById, List.foldr_cons]
    exact insertById_sorted x ih

theorem sortById_pairwise_lt {ls : List EngineLine}
    (h : ls.Pairwise (fun a b => a.id ≠ b.id)) :
    (sortById ls).Pairwise (fun a b => a.id < b.id) := by
  have hne : (sortById ls).Pairwise (fun a b => a.id ≠ b.id) :=
    ((sortById_perm ls).pairwise_iff (fun hab h => hab h.symm)).2 h
  have := (sortById_sorted ls).and hne
  exact this.imp (fun hab => Nat.lt_of_le_of_ne hab.1 hab.2)

/-- All lines returned by `parseAnalysisResults` carry the single deepest
observed depth, and their ranks strictly increase along the result. -/
theorem parseAnalysisResults_shape (messages : List String) :
    (∀ l ∈ parseAnalysisResults messages,
        l.depth = bestDepthOf (accumulateLines messages)) ∧
      (parseAnalysisResults messages).Pairwise (fun a b => a.id < b.id) := by
  unfold parseAnalysisResults
  by_cases hz : bestDepthOf (accumulateLines messages) = 0
  · simp [hz]
  · simp only [if_neg hz]
    set m := accumulateLines messages with hm
    set best := bestDepthOf m with hbest
    have hinv := accumulateLines_inv messages
    cases hlk : List.lookup best m with
    | none =>
      simp [hlk, sortById]
    | some ls =>
      have hmem := lookup_mem hlk
      have hprop := hinv (best, ls) hmem
      constructor
      · intro l hl
        simp only [hlk, Option.getD_some] at hl
        have : l ∈ ls := (sortById_perm ls).mem_iff.1 hl
        exact hprop.1 l this
      · simp only [hlk, Option.getD_some]
        exact sortById_pairwise_lt hprop.2

/-! ## Claim C1 -/

/-- C1, counterexample.  The claim states that `parseAnalysisResults`
returns, for each principal-variation rank that appears, the line of the
deepest depth observed *for that rank*.  In the accumulated output below,
rank 2 appears (parseably, at depth 10, its deepest depth), yet the
parser returns only the single rank-1 line of the globally deepest depth
12: ranks absent from the deepest depth are dropped entirely. -/
theorem claim_C1_counterexample :
    parseAnalysisResults
        ["info depth 10 multipv 1 score cp 5 pv e2e4",
         "info depth 10 multipv 2 score cp 3 pv d2d4",
         "info depth 12 multipv 1 score cp 7 pv e2e4"] =
      [⟨1, 12, ⟨.cp, 7⟩, "e2e4"⟩] ∧
    parseInfoLine "info depth 10 multipv 2 score cp 3 pv d2d4" =
      some ⟨2, 10, ⟨.cp, 3⟩, "d2d4"⟩ := by
  decide

/-- C1, amended.  `parseAnalysisResults` keeps only the lines of the
single globally deepest observed depth: every returned line carries that
depth (shallower lines are superseded, not merged), at most one line is
returned per distinct rank, and the ranks strictly increase along the
result.  Ranks observed only at shallower depths are not returned. -/
theorem claim_C1_theorem (messages : List String) (l : EngineLine)
    (h : l ∈ parseAnalysisResults messages) :
    l.depth = bestDepthOf (accumulateLines messages) ∧
      (parseAnalysisResults messages).Pairwise (fun a b => a.id < b.id) :=
  ⟨(parseAnalysisResults_shape messages).1 l h,
    (parseAnalysisResults_shape messages).2⟩

/-- Witness for `claim_C1_theorem` at a concrete accumulated output. -/
theorem claim_C1_witness :
    (⟨1, 12, ⟨.cp, 7⟩, "e2e4"⟩ : EngineLine) ∈
        parseAnalysisResults
          ["info depth 10 multipv 2 score cp 3 pv d2d4",
           "info depth 12 multipv 1 score cp 7 pv e2e4"] ∧
      ((⟨1, 12, ⟨.cp, 7⟩, "e2e4"⟩ : EngineLine).depth =
          bestDepthOf (accumulateLines
            ["info depth 10 multipv 2 score cp 3 pv d2d4",
             "info depth 12 multipv 1 score cp 7 pv e2e4"]) ∧
        (parseAnalysisResults
            ["info depth 10 multipv 2 score cp 3 pv d2d4",
             "info depth 12 multipv 1 score cp 7 pv e2e4"]).Pairwise
          (fun a b => a.id < b.id)) :=
  ⟨by decide, claim_C1_theorem _ _ (by decide)⟩

/-! ## Claim C8 -/

/-- Lines skipped by the two `continue`s of the parsing loop: a message
not starting with `info depth`, or with no parseable depth, or with no
parseable first principal-variation move, yields no `EngineLine`. -/
theorem parseInfoLine_eq_none {m : String}
    (h : List.isPrefixOf "info depth".data m.data = false ∨
      scanNum "depth ".data m.data = none ∨ scanMove m.data = none) :
    parseInfoLine m = none := by
  unfold parseInfoLine
  rcases h with h | h | h
  · simp [h]
  · rw [h]
    split
    · split <;> simp_all
    · rfl
  · rw [h]
    split
    · split <;> simp_all
    · rfl

/-- A message yielding no `EngineLine` leaves the `linesByDepth`
accumulator untouched. -/
theorem accumulateLines_skip (pre post : List String) {m : String}
    (hm : parseInfoLine m = none) :
    accumulateLines (pre ++ m :: post) = accumulateLines (pre ++ post) := by
  unfold accumulateLines
  rw [List.foldl_append, List.foldl_append, List.foldl_cons, hm]

/-- C8, counterexample.  The claim states that a line lacking a parseable
principal-variation rank is discarded.  The line below has no `multipv`
token (`scanNum` for `multipv ` finds nothing), yet the parser keeps it,
defaulting its rank to 1. -/
theorem claim_C8_counterexample :
    parseAnalysisResults ["info depth 10 score cp 20 pv e2e4"] =
        [⟨1, 10, ⟨.cp, 20⟩, "e2e4"⟩] ∧
      scanNum "multipv ".data "info depth 10 score cp 20 pv e2e4".data = none := by
  decide

/-- C8, amended.  A raw output line that does not start with
`info depth`, or lacks a parseable depth, or lacks a parseable first
move token, contributes nothing to the returned `EngineLine`s — removing
it leaves the parsed result unchanged — and parsing is total, so such a
line never fails the whole request.  (A line lacking only the `multipv`
rank token is kept, with rank defaulting to 1.) -/
theorem claim_C8_theorem (pre post : List String) (m : String)
    (h : List.isPrefixOf "info depth".data m.data = false ∨
      scanNum "depth ".data m.data = none ∨ scanMove m.data = none) :
    parseAnalysisResults (pre ++ m :: post) = parseAnalysisResults (pre ++ post) := by
  unfold parseAnalysisResults
  rw [accumulateLines_skip pre post (parseInfoLine_eq_none h)]

/-- Witness for `claim_C8_theorem`: dropping a malformed line (no move
token) from between two well-formed ones changes nothing. -/
theorem claim_C8_witness :
    (List.isPrefixOf "info depth".data "info depth 11 lowerbound".data = false ∨
        scanNum "depth ".data "info depth 11 lowerbound".data = none ∨
        scanMove "info depth 11 lowerbound".data = none) ∧
      parseAnalysisResults
          (["info depth 10 multipv 1 score cp 5 pv e2e4"] ++
            "info depth 11 lowerbound" :: ["info depth 10 multipv 2 score cp 3 pv d2d4"]) =
        parseAnalysisResults
          (["info depth 10 multipv 1 score cp 5 pv e2e4"] ++
            ["info depth 10 multipv 2 score cp 3 pv d2d4"]) :=
  ⟨by decide, claim_C8_theorem _ _ _ (by decide)⟩

/-! ## Move classification (chess.service.ts lines 168-225, and the
Orchestrator call in AnalysisService.ts `analyzeGame` step 6) -/

/-- The `Classification` union of `analysis.interfaces.ts`. -/
inductive Classification where
  | brilliant
  | great
  | best
  | excellent
  | good
  | inaccuracy
  | mistake
  | blunder
  | book
  | forced
deriving DecidableEq, Repr

/-- `classifyMove(evaluationDelta, previousEval?, currentEval?, isBestMove = false)`
(chess.service.ts lines 168-225), with each JS `if` chain branch in source
order.  `previousEval !== undefined && previousEval <= 100` is the
`Option.any` test; `currentEval` is accepted but never read, as in the
source. -/
def classifyMove (evaluationDelta : Int) (previousEval : Option Int)
    (currentEval : Option Int) (isBestMove : Bool) : Classification :=
  let _ := currentEval
  if isBestMove = true then .best
  else if evaluationDelta < -150 ∧
      previousEval.any (fun p => decide (p ≤ 100)) = true then .brilliant
  else if evaluationDelta < -50 ∧ -150 ≤ evaluationDelta then .great
  else if 0 ≤ evaluationDelta ∧ evaluationDelta ≤ 20 then .excellent
  else if 20 < evaluationDelta ∧ evaluationDelta ≤ 50 then .good
  else if 50 < evaluationDelta ∧ evaluationDelta ≤ 100 then .inaccuracy
  else if 100 < evaluationDelta ∧ evaluationDelta ≤ 300 then .mistake
  else if 300 < evaluationDelta then .blunder
  else if evaluationDelta < 0 ∧ -50 ≤ evaluationDelta then .excellent
  else .good

/-- The Orchestrator's classification call,
`this.chessService.classifyMove(cpLoss, isBestMove)`
(AnalysisService.ts `analyzeGame`, step 6): the boolean `isBestMove` is
passed positionally into the classifier's `previousEval : number`
parameter, where JS coerces `true`/`false` to `1`/`0` in the `<= 100`
comparison, and the classifier's own `isBestMove` parameter keeps its
default `false`. -/
def classifyMoveAsCalled (cpLoss : Int) (isBestMove : Bool) : Classification :=
  classifyMove cpLoss (some (if isBestMove then 1 else 0)) none false

/-! ## Claim C6 -/

/-- C6, counterexample.  The spec's threshold table says a loss of 15
centipawns (10 < 15 ≤ 25) is classified `good` and an exact best-move
match is classified `best`; the code classifies a 15-centipawn loss as
`excellent` (its `excellent` band is 0..20) and an exact best-move match
(loss 0) also as `excellent`, because the Orchestrator passes
`isBestMove` into the `previousEval` slot of `classifyMove`. -/
theorem claim_C6_counterexample :
    classifyMoveAsCalled 15 false = .excellent ∧
      classifyMoveAsCalled 15 false ≠ .good ∧
      classifyMoveAsCalled 0 true ≠ .best := by
  decide

/-- C6, amended.  For every clamped centipawn loss `L ≥ 0` (the
Orchestrator clamps `cpLoss` with `Math.max(0, ...)`), the classification
produced by the Orchestrator's call is independent of the best-move flag
and follows the code's bands: `L ≤ 20` excellent, `20 < L ≤ 50` good,
`50 < L ≤ 100` inaccuracy, `100 < L ≤ 300` mistake, `L > 300` blunder;
an exact best-move match (loss 0) therefore lands in `excellent`, and
`best` is never produced by this path. -/
theorem claim_C6_theorem (L : Int) (b : Bool) (h : 0 ≤ L) :
    classifyMoveAsCalled L b =
      if L ≤ 20 then .excellent
      else if L ≤ 50 then .good
      else if L ≤ 100 then .inaccuracy
      else if L ≤ 300 then .mistake
      else .blunder := by
  simp only [classifyMoveAsCalled, classifyMove, Option.any_some]
  rw [if_neg (by decide : ¬(false = true))]
  rw [if_neg (fun hc => absurd hc.1 (by omega : ¬L < -150))]
  rw [if_neg (fun hc => absurd hc.1 (by omega : ¬L < -50))]
  split_ifs <;> first | rfl | omega

/-- Witness for `claim_C6_theorem` at the concrete loss 15. -/
theorem claim_C6_witness :
    (0 : Int) ≤ 15 ∧
      classifyMoveAsCalled 15 false =
        if (15 : Int) ≤ 20 then .excellent
        else if (15 : Int) ≤ 50 then .good
        else if (15 : Int) ≤ 100 then .inaccuracy
        else if (15 : Int) ≤ 300 then .mistake
        else .blunder :=
  ⟨by decide, claim_C6_theorem 15 false (by decide)⟩

/-! ## Evaluation comparison (AnalysisService.ts lines 173-180 and
engine.service.ts lines 383-391) -/

/-- JS `Math.sign` on integers. -/
def jsSign (v : Int) : Int :=
  if 0 < v then 1 else if v < 0 then -1 else 0

/-- JS `Math.abs` on integers. -/
def jsAbs (v : Int) : Int :=
  if v < 0 then -v else v

/-- `evalToCP` (AnalysisService.ts lines 173-180): a mate in `v` plies
becomes `sign(v) * (10000 - |v| * 20)`; a centipawn score is returned
unchanged. -/
def evalToCP (evalObj : Evaluation) : Int :=
  match evalObj.type with
  | .mate => jsSign evalObj.value * (10000 - jsAbs evalObj.value * 20)
  | .cp => evalObj.value

/-- `calculateEvaluationDelta` (engine.service.ts lines 383-391). -/
def calculateEvaluationDelta (current previous : Evaluation) : Int :=
  if current.type = .mate ∨ previous.type = .mate then
    if current.type = .mate ∧ previous.type = .mate then
      current.value - previous.value
    else if current.type = .mate then 1000 else -1000
  else current.value - previous.value

/-! ## Claim C9 -/

/-- C9, counterexample.  `calculateEvaluationDelta` treats any mate score
as `+1000` relative to any centipawn score regardless of the mate's sign:
a mate-in-1 *against* the mover compared with a `+50` centipawn score
yields `+1000`, ranking the mate-against above the centipawn score,
contrary to the claimed total order.  Moreover `evalToCP` maps a `+9950`
centipawn score above a mate-in-5 (`9900`), so a mate in the mover's
favor does not outrank every centipawn score. -/
theorem claim_C9_counterexample :
    calculateEvaluationDelta ⟨.mate, -1⟩ ⟨.cp, 50⟩ = 1000 ∧
      evalToCP ⟨.cp, 9950⟩ > evalToCP ⟨.mate, 5⟩ := by
  decide

/-- C9, amended.  The order induced by `evalToCP` alone realizes the
spec's chain — mate-in-m₁ > mate-in-m₂ > centipawn c > mate-in-m₂-against
> mate-in-m₁-against for `0 < m₁ < m₂` — provided the centipawn magnitude
stays below `10000 - 20·m₂`; `calculateEvaluationDelta` does not realize
the order for mixed mate/centipawn comparisons (see the counterexample). -/
theorem claim_C9_theorem (m1 m2 c : Int) (h1 : 0 < m1) (h2 : m1 < m2)
    (h3 : jsAbs c < 10000 - 20 * m2) :
    evalToCP ⟨.mate, m1⟩ > evalToCP ⟨.mate, m2⟩ ∧
      evalToCP ⟨.mate, m2⟩ > evalToCP ⟨.cp, c⟩ ∧
      evalToCP ⟨.cp, c⟩ > evalToCP ⟨.mate, -m2⟩ ∧
      evalToCP ⟨.mate, -m2⟩ > evalToCP ⟨.mate, -m1⟩ := by
  have s1 : jsSign m1 = 1 := by unfold jsSign; rw [if_pos h1]
  have s2 : jsSign m2 = 1 := by unfold jsSign; rw [if_pos (by omega)]
  have s1n : jsSign (-m1) = -1 := by
    unfold jsSign; rw [if_neg (by omega), if_pos (by omega)]
  have s2n : jsSign (-m2) = -1 := by
    unfold jsSign; rw [if_neg (by omega), if_pos (by omega)]
  have a1 : jsAbs m1 = m1 := by unfold jsAbs; rw [if_neg (by omega)]
  have a2 : jsAbs m2 = m2 := by unfold jsAbs; rw [if_neg (by omega)]
  have a1n : jsAbs (-m1) = m1 := by unfold jsAbs; rw [if_pos (by omega)]; ring
  have a2n : jsAbs (-m2) = m2 := by unfold jsAbs; rw [if_pos (by omega)]; ring
  unfold jsAbs at h3
  simp only [evalToCP, s1, s2, s1n, s2n, a1, a2, a1n, a2n, one_mul, neg_one_mul]
  split_ifs at h3 <;>
    exact ⟨by omega, by omega, by omega, by omega⟩

/-- Witness for `claim_C9_theorem` at mate-in-1, mate-in-5 and +5000. -/
theorem claim_C9_witness :
    (0 : Int) < 1 ∧ (1 : Int) < 5 ∧ jsAbs 5000 < 10000 - 20 * 5 ∧
      (evalToCP ⟨.mate, 1⟩ > evalToCP ⟨.mate, 5⟩ ∧
        evalToCP ⟨.mate, 5⟩ > evalToCP ⟨.cp, 5000⟩ ∧
        evalToCP ⟨.cp, 5000⟩ > evalToCP ⟨.mate, -5⟩ ∧
        evalToCP ⟨.mate, -5⟩ > evalToCP ⟨.mate, -1⟩) :=
  ⟨by decide, by decide, by decide, claim_C9_theorem 1 5 5000 (by decide) (by decide) (by decide)⟩

/-! ## The chess rules library as an oracle

`chess.js` (`validateFen`, `isCheckmate`/`isStalemate`/`isDraw`) is an
external collaborator of this core (spec §6); `isValidFen`
(engine.service.ts lines 376-378) and `isTerminalPosition` (lines
223-239) delegate to it, so the embedding takes it as an oracle. -/

/-- The three terminal outcomes distinguished by `isTerminalPosition`. -/
inductive TerminalKind where
  | checkmate
  | stalemate
  | draw
deriving DecidableEq, Repr

/-- The external chess rules library: `validateFen(fen).ok`, and the
checkmate/stalemate/draw test of `isTerminalPosition` (`none` also covers
the `catch` branch that maps a library error to "not terminal"). -/
structure ChessRules where
  validFen : String → Bool
  terminalStatus : String → Option TerminalKind

/-- `isValidFen` (engine.service.ts lines 376-378). -/
def isValidFen (rules : ChessRules) (fen : String) : Bool :=
  rules.validFen fen

/-- `isTerminalPosition` (engine.service.ts lines 223-239), returning the
terminal kind in place of the `{ isTerminal, result }` record. -/
def isTerminalPosition (rules : ChessRules) (fen : String) : Option TerminalKind :=
  rules.terminalStatus fen

/-- The engine session's parsing buffer (`currentMessages`). -/
structure EngineBuffers where
  currentMessages : List String
deriving DecidableEq, Repr

/-- The synthetic single-line result for terminal positions
(engine.service.ts lines 252-263): `mate 0` for checkmate, `cp 0` for
stalemate or draw, with an empty move. -/
def terminalLines (result : TerminalKind) (depth : Nat) : List EngineLine :=
  [⟨1, depth,
    (match result with
     | .checkmate => ⟨.mate, 0⟩
     | _ => ⟨.cp, 0⟩),
    ""⟩]

/-- `evaluatePosition` (engine.service.ts lines 244-267) together with
the request-level denotation of `evaluatePositionInternal` (lines
272-323): `output` is the stdout accumulated for this request, and both
completion paths (the `bestmove` resolution and the timeout resolution)
parse it with `parseAnalysisResults`.  Returns the settled outcome, the
commands written to the subprocess, and the session buffer afterwards
(cleared by the internal path when it resolves, untouched otherwise). -/
def evaluatePosition (rules : ChessRules) (output : List String)
    (st : EngineBuffers) (fen : String) (depth : Nat) :
    Except String (List EngineLine) × List String × EngineBuffers :=
  if isValidFen rules fen = false then
    (.error "Invalid FEN format", [], st)
  else
    match isTerminalPosition rules fen with
    | some result => (.ok (terminalLines result depth), [], st)
    | none =>
      (.ok (parseAnalysisResults output),
        ["isready", "position fen " ++ fen, "go depth " ++ toString depth],
        ⟨[]⟩)

/-! ## Claim C7 -/

/-- C7, confirmed.  For a valid FEN that the rules library reports as
terminal (checkmate, stalemate or draw), `evaluatePosition` answers with
the synthetic terminal line and writes no command at all to the engine —
in particular it never dispatches a `go` (search-to-depth) command. -/
theorem claim_C7_theorem (rules : ChessRules) (output : List String)
    (st : EngineBuffers) (fen : String) (depth : Nat) (k : TerminalKind)
    (hv : isValidFen rules fen = true)
    (ht : isTerminalPosition rules fen = some k) :
    evaluatePosition rules output st fen depth =
        (.ok (terminalLines k depth), [], st) ∧
      ∀ c ∈ (evaluatePosition rules output st fen depth).2.1,
        c.startsWith "go" = false := by
  have h1 : evaluatePosition rules output st fen depth =
      (.ok (terminalLines k depth), [], st) := by
    simp [evaluatePosition, hv, ht]
  refine ⟨h1, ?_⟩
  rw [h1]
  intro c hc
  simp at hc

/-- Witness for `claim_C7_theorem` at the spec's checkmate scenario FEN. -/
theorem claim_C7_witness :
    isValidFen ⟨fun _ => true, fun _ => some .checkmate⟩
        "rnb1kbnr/pppp1ppp/8/4p3/6Pq/5P2/PPPPP2P/RNBQKBNR w KQkq - 1 3" = true ∧
      isTerminalPosition ⟨fun _ => true, fun _ => some .checkmate⟩
        "rnb1kbnr/pppp1ppp/8/4p3/6Pq/5P2/PPPPP2P/RNBQKBNR w KQkq - 1 3" =
          some .checkmate ∧
      (evaluatePosition ⟨fun _ => true, fun _ => some .checkmate⟩ [] ⟨[]⟩
            "rnb1kbnr/pppp1ppp/8/4p3/6Pq/5P2/PPPPP2P/RNBQKBNR w KQkq - 1 3" 10 =
          (.ok (terminalLines .checkmate 10), [], ⟨[]⟩) ∧
        ∀ c ∈ (evaluatePosition ⟨fun _ => true, fun _ => some .checkmate⟩ [] ⟨[]⟩
            "rnb1kbnr/pppp1ppp/8/4p3/6Pq/5P2/PPPPP2P/RNBQKBNR w KQkq - 1 3" 10).2.1,
          c.startsWith "go" = false) :=
  ⟨rfl, rfl, claim_C7_theorem _ _ _ _ _ _ rfl rfl⟩

/-! ## Claim C10 -/

/-- C10, confirmed.  When the rules library rejects the FEN,
`evaluatePosition` fails immediately with `Invalid FEN format`: no
command is written to the subprocess (no buffer-clearing `isready` sync,
no `position`, no `go`) and the session buffer is returned exactly as it
was. -/
theorem claim_C10_theorem (rules : ChessRules) (output : List String)
    (st : EngineBuffers) (fen : String) (depth : Nat)
    (hv : isValidFen rules fen = false) :
    evaluatePosition rules output st fen depth =
      (.error "Invalid FEN format", [], st) := by
  simp [evaluatePosition, hv]

/-- Witness for `claim_C10_theorem` on a rejected FEN string. -/
theorem claim_C10_witness :
    isValidFen ⟨fun _ => false, fun _ => none⟩ "not a fen" = false ∧
      evaluatePosition ⟨fun _ => false, fun _ => none⟩ [] ⟨["stale"]⟩ "not a fen" 18 =
        (.error "Invalid FEN format", [], ⟨["stale"]⟩) :=
  ⟨rfl, claim_C10_theorem _ _ _ _ _ rfl⟩

/-! ## The retry loop (engine.service.ts lines 329-357) -/

/-- One row of the retry log: the depth an attempt used, and whether the
engine was restarted after that attempt failed. -/
structure AttemptLog where
  depth : Nat
  restarted : Bool
deriving DecidableEq, Repr

/-- One attempt of the retry loop: `this.evaluatePosition(fen,
currentDepth)`, with `outputs attempt` the stdout that attempt
accumulates. -/
def attemptOutcome (rules : ChessRules) (outputs : Nat → List String)
    (fen : String) (attempt : Nat) (currentDepth : Nat) :
    Except String (List EngineLine) :=
  (evaluatePosition rules (outputs attempt) ⟨[]⟩ fen currentDepth).1

/-- The `for` loop of `evaluatePositionWithRetry`: non-empty results
return at once; an empty result reduces the depth by 4 (floor 8) and
restarts the engine when `attempt > 0`; a thrown error is caught, the
depth is reduced, and no restart happens; exhausted attempts yield `[]`.
The returned log records each attempt's depth and restart. -/
def retryLoop (rules : ChessRules) (outputs : Nat → List String) (fen : String) :
    Nat → Nat → Nat → List EngineLine × List AttemptLog
  | _, _, 0 => ([], [])
  | attempt, currentDepth, fuel + 1 =>
    match attemptOutcome rules outputs fen attempt currentDepth with
    | .ok results =>
      if results.isEmpty then
        let next := retryLoop rules outputs fen (attempt + 1) (max 8 (currentDepth - 4)) fuel
        (next.1, ⟨currentDepth, decide (0 < attempt)⟩ :: next.2)
      else (results, [⟨currentDepth, false⟩])
    | .error _ =>
      let next := retryLoop rules outputs fen (attempt + 1) (max 8 (currentDepth - 4)) fuel
      (next.1, ⟨currentDepth, false⟩ :: next.2)

/-- `evaluatePositionWithRetry` (engine.service.ts lines 329-357);
`maxRetries` defaults to 3 at the call sites.  Total by construction:
every attempt's error is caught, matching the source's `try`/`catch`. -/
def evaluatePositionWithRetry (rules : ChessRules) (outputs : Nat → List String)
    (fen : String) (depth : Nat) (maxRetries : Nat) :
    List EngineLine × List AttemptLog :=
  retryLoop rules outputs fen 0 depth maxRetries

/-! ## Claim C3 -/

/-- Any successful outcome of `evaluatePosition` — synthetic terminal
line or parsed engine output — has strictly increasing ranks. -/
theorem evaluatePosition_ok_pairwise (rules : ChessRules) (output : List String)
    (st : EngineBuffers) (fen : String) (depth : Nat) (ls : List EngineLine)
    (h : (evaluatePosition rules output st fen depth).1 = .ok ls) :
    ls.Pairwise (fun a b => a.id < b.id) := by
  unfold evaluatePosition at h
  by_cases hv : isValidFen rules fen = false
  · simp [hv] at h
  · rw [if_neg hv] at h
    cases ht : isTerminalPosition rules fen with
    | some k =>
      rw [ht] at h
      simp only [Except.ok.injEq] at h
      subst h
      simp [terminalLines]
    | none =>
      rw [ht] at h
      simp only [Except.ok.injEq] at h
      subst h
      exact (parseAnalysisResults_shape output).2

/-- C3, counterexample.  The claim says a non-empty result's ranks form
the contiguous set `{1..k}` starting at 1.  With a healthy engine whose
only parseable deepest-depth line carries `multipv 2`, the retry wrapper
returns a non-empty result whose single rank is 2 — not a contiguous
sequence starting at 1. -/
theorem claim_C3_counterexample :
    (evaluatePositionWithRetry ⟨fun _ => true, fun _ => none⟩
          (fun _ => ["info depth 12 multipv 2 score cp 5 pv e2e4"])
          "rnbqkbnr/pppppppp/8/8/8/8/PPPPPPPP/RNBQKBNR w KQkq - 0 1" 12 3).1 =
        [⟨2, 12, ⟨.cp, 5⟩, "e2e4"⟩] ∧
      (⟨2, 12, ⟨.cp, 5⟩, "e2e4"⟩ : EngineLine).id ≠ 1 := by
  decide

/-- C3, amended.  For every rules oracle, engine output, FEN, depth and
attempt budget, `evaluatePositionWithRetry` returns either the empty
sequence or a non-empty sequence whose ranks strictly increase (hence at
most one line per rank, sorted ascending); the ranks need not be
contiguous nor start at 1.  The function is total — errors of an attempt
are caught, so it never throws. -/
theorem claim_C3_theorem (rules : ChessRules) (outputs : Nat → List String)
    (fen : String) (depth maxRetries : Nat) :
    (evaluatePositionWithRetry rules outputs fen depth maxRetries).1 = [] ∨
      (evaluatePositionWithRetry rules outputs fen depth maxRetries).1.Pairwise
        (fun a b => a.id < b.id) := by
  unfold evaluatePositionWithRetry
  suffices h : ∀ fuel attempt d,
      (retryLoop rules outputs fen attempt d fuel).1 = [] ∨
        (retryLoop rules outputs fen attempt d fuel).1.Pairwise
          (fun a b => a.id < b.id) from h maxRetries 0 depth
  intro fuel
  induction fuel with
  | zero =>
    intro attempt d
    left
    rfl
  | succ n ih =>
    intro attempt d
    simp only [retryLoop]
    cases hout : attemptOutcome rules outputs fen attempt d with
    | ok results =>
      by_cases he : results.isEmpty
      · simp only [he, if_pos]
        exact ih (attempt + 1) (max 8 (d - 4))
      · simp only [he]
        rw [if_neg (by simp [he])]
        right
        exact evaluatePosition_ok_pairwise rules (outputs attempt) ⟨[]⟩ fen d results hout
    | error e =>
      exact ih (attempt + 1) (max 8 (d - 4))

/-! ## Claim C5 -/

/-- The depth schedule of the retry loop: each failed attempt lowers the
depth by 4, floored at 8. -/
def retryDepths (depth : Nat) : Nat → List Nat
  | 0 => []
  | n + 1 => depth :: retryDepths (max 8 (depth - 4)) n

/-- The full per-attempt log the retry loop produces when every attempt
comes back empty: depth schedule plus restart flags (`attempt > 0`). -/
def expectedLog (depth attempt : Nat) : Nat → List AttemptLog
  | 0 => []
  | n + 1 =>
    ⟨depth, decide (0 < attempt)⟩ :: expectedLog (max 8 (depth - 4)) (attempt + 1) n

theorem expectedLog_length (n : Nat) :
    ∀ d a, (expectedLog d a n).length = n := by
  induction n with
  | zero => intro d a; rfl
  | succ n ih => intro d a; simp [expectedLog, ih]

theorem expectedLog_map_depth (n : Nat) :
    ∀ d a, (expectedLog d a n).map (fun r => r.depth) = retryDepths d n := by
  induction n with
  | zero => intro d a; rfl
  | succ n ih => intro d a; simp [expectedLog, retryDepths, ih]

theorem expectedLog_map_restarted (n : Nat) :
    ∀ d a, (expectedLog d a n).map (fun r => r.restarted) =
      (List.range n).map (fun i => decide (0 < a + i)) := by
  induction n with
  | zero => intro d a; rfl
  | succ n ih =>
    intro d a
    rw [List.range_succ_eq_map]
    simp only [expectedLog, List.map_cons, List.map_map, ih]
    have hfun : ∀ i : Nat, decide (0 < a + 1 + i) = decide (0 < a + Nat.succ i) := by
      intro i
      have h : a + 1 + i = a + Nat.succ i := by omega
      rw [h]
    refine congrArg₂ List.cons (by simp) ?_
    exact List.map_congr_left fun i _ => hfun i

theorem retryLoop_all_empty (rules : ChessRules) (outputs : Nat → List String)
    (fen : String) (hv : rules.validFen fen = true)
    (ht : rules.terminalStatus fen = none)
    (hout : ∀ i, parseAnalysisResults (outputs i) = []) :
    ∀ fuel attempt d,
      retryLoop rules outputs fen attempt d fuel = ([], expectedLog d attempt fuel) := by
  intro fuel
  induction fuel with
  | zero => intro attempt d; rfl
  | succ n ih =>
    intro attempt d
    have hao : attemptOutcome rules outputs fen attempt d = .ok [] := by
      unfold attemptOutcome evaluatePosition isValidFen isTerminalPosition
      simp [hv, ht, hout attempt]
    simp only [retryLoop, hao, List.isEmpty_nil, if_pos, ih]
    rfl

/-- C5, confirmed.  When the FEN is valid and non-terminal and every
attempt's output parses to the empty sequence, the retry wrapper runs
exactly `maxRetries` attempts (the first plus `maxRetries - 1` retries),
follows the depth schedule `depth, max 8 (depth-4), ...` (decrement 4,
floor 8), restarts the engine after every failed attempt except the
first (`attempt > 0`), and finally returns the empty sequence rather
than throwing. -/
theorem claim_C5_theorem (rules : ChessRules) (outputs : Nat → List String)
    (fen : String) (depth n : Nat) (hv : rules.validFen fen = true)
    (ht : rules.terminalStatus fen = none)
    (hout : ∀ i, parseAnalysisResults (outputs i) = []) :
    (evaluatePositionWithRetry rules outputs fen depth n).1 = [] ∧
      (evaluatePositionWithRetry rules outputs fen depth n).2.length = n ∧
      (evaluatePositionWithRetry rules outputs fen depth n).2.map (fun r => r.depth) =
        retryDepths depth n ∧
      (evaluatePositionWithRetry rules outputs fen depth n).2.map (fun r => r.restarted) =
        (List.range n).map (fun i => decide (0 < i)) := by
  unfold evaluatePositionWithRetry
  rw [retryLoop_all_empty rules outputs fen hv ht hout n 0 depth]
  refine ⟨rfl, expectedLog_length n depth 0, expectedLog_map_depth n depth 0, ?_⟩
  rw [expectedLog_map_restarted n depth 0]
  simp

/-- Witness for `claim_C5_theorem`: three empty attempts at requested
depth 20 give depths 20, 16, 12, restarts only from the second failure,
and an empty final result. -/
theorem claim_C5_witness :
    (evaluatePositionWithRetry ⟨fun _ => true, fun _ => none⟩ (fun _ => [])
          "rnbqkbnr/pppppppp/8/8/8/8/PPPPPPPP/RNBQKBNR w KQkq - 0 1" 20 3).1 = [] ∧
      (evaluatePositionWithRetry ⟨fun _ => true, fun _ => none⟩ (fun _ => [])
          "rnbqkbnr/pppppppp/8/8/8/8/PPPPPPPP/RNBQKBNR w KQkq - 0 1" 20 3).2.length = 3 ∧
      (evaluatePositionWithRetry ⟨fun _ => true, fun _ => none⟩ (fun _ => [])
          "rnbqkbnr/pppppppp/8/8/8/8/PPPPPPPP/RNBQKBNR w KQkq - 0 1" 20 3).2.map
        (fun r => r.depth) = retryDepths 20 3 ∧
      (evaluatePositionWithRetry ⟨fun _ => true, fun _ => none⟩ (fun _ => [])
          "rnbqkbnr/pppppppp/8/8/8/8/PPPPPPPP/RNBQKBNR w KQkq - 0 1" 20 3).2.map
        (fun r => r.restarted) = (List.range 3).map (fun i => decide (0 < i)) :=
  claim_C5_theorem ⟨fun _ => true, fun _ => none⟩ (fun _ => [])
    "rnbqkbnr/pppppppp/8/8/8/8/PPPPPPPP/RNBQKBNR w KQkq - 0 1" 20 3 rfl rfl
    (fun _ => rfl)

/-! ## The asynchronous session as a state machine (claims C2 and C4)

`handleMessage` (engine.service.ts lines 91-113) runs on every stdout
line, appending it to `currentMessages` and, on a `bestmove` line while a
promise is pending, resolving the pending request with
`parseAnalysisResults` of the buffer; `evaluatePositionInternal` (lines
272-322) clears the buffer and sends `position`/`go` before parking a
pending promise; its timeout callback (lines 307-321) sends `stop`,
parses the partial buffer, clears it and resolves.  We embed this as a
step function over an event trace.  A delivered line carries a ghost
`origin` tag — the index of the request whose search produced it — which
the step function never reads: it only identifies stale output in
statements.  Readiness bookkeeping (`isReady`, `currentDepth`) does not
feed the parsed results and is omitted. -/

/-- The events the session reacts to: a stdout line delivered by the
subprocess, a new analysis request being submitted (the two buffer
clears, `position fen ...`, `go depth ...`, pending promise parked), and
the timeout callback firing. -/
inductive EngineEvent where
  | deliver (origin : Nat) (line : String)
  | submit (fen : String) (depth : Nat)
  | timeoutFire
deriving DecidableEq, Repr

/-- Equality of analysis outcomes is decidable (needed to evaluate trace
runs on concrete inputs). -/
instance : DecidableEq (Except String (List EngineLine)) := fun a b =>
  match a, b with
  | .error x, .error y =>
    if h : x = y then .isTrue (h ▸ rfl)
    else .isFalse (fun hc => h (by injection hc))
  | .ok x, .ok y =>
    if h : x = y then .isTrue (h ▸ rfl)
    else .isFalse (fun hc => h (by injection hc))
  | .error _, .ok _ => .isFalse (fun hc => by injection hc)
  | .ok _, .error _ => .isFalse (fun hc => by injection hc)

/-- A settled analysis promise: which request it answered, the tagged
buffer it parsed, and its outcome. -/
structure Resolution where
  request : Nat
  buffered : List (Nat × String)
  outcome : Except String (List EngineLine)
deriving DecidableEq, Repr

/-- The session state: the tagged stdout buffer (`currentMessages`), the
parked promise flag (`pendingResolve`), the index of the current request,
the log of settled promises, and the commands written to the engine. -/
structure Sess where
  currentMessages : List (Nat × String)
  pendingResolve : Bool
  currentRequest : Nat
  resolved : List Resolution
  sent : List String
deriving DecidableEq, Repr

/-- The session before any request. -/
def initSess : Sess :=
  ⟨[], false, 0, [], []⟩

/-- One step of the session: `handleMessage` for `deliver`, the
clear-and-send prefix of `evaluatePositionInternal` for `submit`, and the
timeout callback for `timeoutFire`. -/
def handleEvent (s : Sess) : EngineEvent → Sess
  | .deliver origin line =>
    let ms := s.currentMessages ++ [(origin, line)]
    if List.isPrefixOf "bestmove".data line.data ∧ s.pendingResolve = true then
      { s with
        currentMessages := []
        pendingResolve := false
        resolved := s.resolved ++
          [⟨s.currentRequest, ms, .ok (parseAnalysisResults (ms.map Prod.snd))⟩] }
    else { s with currentMessages := ms }
  | .submit fen depth =>
    { s with
      currentMessages := []
      pendingResolve := true
      currentRequest := s.currentRequest + 1
      sent := s.sent ++
        ["isready", "position fen " ++ fen, "go depth " ++ toString depth] }
  | .timeoutFire =>
    if s.pendingResolve = true then
      { s with
        currentMessages := []
        pendingResolve := false
        resolved := s.resolved ++
          [⟨s.currentRequest, s.currentMessages,
            .ok (parseAnalysisResults (s.currentMessages.map Prod.snd))⟩]
        sent := s.sent ++ ["stop"] }
    else s

/-- Runs a whole event trace from the initial session. -/
def runTrace (events : List EngineEvent) : Sess :=
  events.foldl handleEvent initSess

/-! ## Claim C2 -/

/-- The spec's no-stale-leakage scenario: request 1 times out (`stop` is
sent, the promise resolves with the partial buffer), request 2 is
submitted — clearing the buffer — and only then does the slow subprocess
emit the remainder of request 1's search (origin tag 1): a progress line
for the old position and the old search's `bestmove`. -/
def staleTrace : List EngineEvent :=
  [.submit "r1bqkbnr/pppp1ppp/2n5/8/3pP3/5N2/PPP2PPP/RNBQKB1R b KQkq - 0 4" 20,
   .deliver 1 "info depth 10 multipv 1 score cp 33 pv a7a5",
   .timeoutFire,
   .submit "rnbqkbnr/pppppppp/8/8/8/8/PPPPPPPP/RNBQKBNR w KQkq - 0 1" 20,
   .deliver 1 "info depth 20 multipv 1 score cp 99 pv a7a5",
   .deliver 1 "bestmove a7a5"]

/-- C2, refuted on the code (code bug).  The claim demands that after a
`stop()`-interrupted request, the next request's parsed result contains
zero lines originating from the previous request's output.  Running the
session on `staleTrace`, request 2 resolves with exactly the line parsed
from a buffer whose every entry carries origin tag 1: the delayed output
of the interrupted first search leaks into — and even prematurely
resolves — the second request's result.  The clears of
`evaluatePositionInternal` only empty the buffer at submission time; they
cannot exclude output delivered afterwards. -/
theorem claim_C2_theorem :
    (runTrace staleTrace).resolved =
      [⟨1, [(1, "info depth 10 multipv 1 score cp 33 pv a7a5")],
        .ok [⟨1, 10, ⟨.cp, 33⟩, "a7a5"⟩]⟩,
       ⟨2, [(1, "info depth 20 multipv 1 score cp 99 pv a7a5"),
            (1, "bestmove a7a5")],
        .ok [⟨1, 20, ⟨.cp, 99⟩, "a7a5"⟩]⟩] := by
  decide

/-! ## Claim C4 -/

/-- C4, confirmed.  Whenever the timeout callback fires while a request
is still pending (the `bestmove` token has not arrived), the session
sends a `stop` command and the promise resolves — with `Except.ok`, never
a rejection — carrying the partial `EngineLine`s parsed from whatever
output had drained by then (possibly none), after which the buffer is
cleared and no promise is pending. -/
theorem claim_C4_theorem (s : Sess) (h : s.pendingResolve = true) :
    handleEvent s .timeoutFire =
      { s with
        currentMessages := []
        pendingResolve := false
        resolved := s.resolved ++
          [⟨s.currentRequest, s.currentMessages,
            .ok (parseAnalysisResults (s.currentMessages.map Prod.snd))⟩]
        sent := s.sent ++ ["stop"] } := by
  simp [handleEvent, h]

/-- Witness for `claim_C4_theorem`: a pending request with one buffered
progress line resolves on timeout with that partial line and a `stop`. -/
theorem claim_C4_witness :
    (⟨[(1, "info depth 10 multipv 1 score cp 5 pv e2e4")], true, 1, [], []⟩ :
        Sess).pendingResolve = true ∧
      handleEvent
          ⟨[(1, "info depth 10 multipv 1 score cp 5 pv e2e4")], true, 1, [], []⟩
          .timeoutFire =
        { (⟨[(1, "info depth 10 multipv 1 score cp 5 pv e2e4")], true, 1, [], []⟩ :
            Sess) with
          currentMessages := []
          pendingResolve := false
          resolved := [] ++
            [⟨1, [(1, "info depth 10 multipv 1 score cp 5 pv e2e4")],
              .ok (parseAnalysisResults
                ([(1, "info depth 10 multipv 1 score cp 5 pv e2e4")].map Prod.snd))⟩]
          sent := [] ++ ["stop"] } :=
  ⟨rfl, claim_C4_theorem _ rfl⟩

end Chessmaster
